import Mathlib

/-!
Verification of `converter/command.py` from the firestore-export-json
repository.

The file embeds the aggregator (`process_files`, `process_file`,
`analyze_file`, `combine_file_analysis`) and the tree-building loop of
`read_file` as Lean functions.  Python dictionaries are modelled as
insertion-ordered association lists (`List (String × _)`), Python
exceptions as an `Except PyError _` result, and the external record
decoder (module `converter/records.py`, which is not part of the sources
under verification) as an abstract decode outcome attached to each input
file.
-/

namespace FsToJson

/-- Python exceptions that the modelled code can raise. -/
inductive PyError where
  | corruptionError
  | attributeError
  | zeroDivisionError
  deriving DecidableEq, Repr

/-- A dynamically typed Python value as it appears in the entity field
maps handed over by the datastore deserializer: primitives, lists,
opaque `EmbeddedEntity` values and plain dictionaries. -/
inductive PyVal where
  | int (n : Int)
  | str (s : String)
  | list (xs : List PyVal)
  | embedded (fields : List (String × PyVal))
  | dict (fields : List (String × PyVal))
  deriving Repr

/-- A Python dict with string keys, as an insertion-ordered association
list. -/
abbrev PyDict (α : Type) := List (String × α)

/-- A field map / JSON tree level: a Python dict of `PyVal`s. -/
abbrev FieldMap := PyDict PyVal

/-- The JSON tree built by `read_file`: collection name to documents. -/
abbrev Tree := FieldMap

/-- Python `d[k]` lookup (first binding wins, as keys of a real dict are
unique). -/
def alookup : PyDict α → String → Option α
  | [], _ => none
  | (k, v) :: m, key => if k = key then some v else alookup m key

/-- Python `d[k] = v`: replace the binding in place when the key is
present, append it otherwise (dicts preserve insertion order). -/
def aupdate : PyDict α → String → α → PyDict α
  | [], key, val => [(key, val)]
  | (k, v) :: m, key, val =>
      if k = key then (key, val) :: m else (k, v) :: aupdate m key val

/-- Python `d.update(e)`: fold the bindings of `e` into `d` in order. -/
def dictUpdate (d : PyDict α) (e : PyDict α) : PyDict α :=
  e.foldl (fun acc p => aupdate acc p.1 p.2) d

/-- Apply `f` to the sub-dictionary stored under `k`, creating an empty
one when the key is absent (Python `d.setdefault(k, {})` followed by a
mutation of the returned dict).  A non-dict value under `k` is
unreachable in the trees the code builds and is left unchanged. -/
def updateDictAt (m : FieldMap) (k : String) (f : FieldMap → FieldMap) : FieldMap :=
  match alookup m k with
  | some (PyVal.dict d) => aupdate m k (PyVal.dict (f d))
  | some _ => m
  | none => m ++ [(k, PyVal.dict (f []))]

/-- An entity key: the ordered kind/identifier path, identifiers already
stringified. -/
abbrev EntityKey := List (String × String)

/-- Modelled from the spec: `get_dest_dict` of `converter/utils.py` (not
under the sources being verified) walks the entity key from root to
leaf, descending or creating `tree[kind][identifier]` at every level,
and returns the leaf document dictionary, which the caller then
mutates.  Functionally: apply the caller's mutation `f` at the leaf
position of `key`. -/
def getDestDictUpdate : EntityKey → (FieldMap → FieldMap) → Tree → Tree
  | [], _, m => m
  | [(kind, ident)], f, m =>
      updateDictAt m kind (fun coll => updateDictAt coll ident f)
  | (kind, ident) :: rest, f, m =>
      updateDictAt m kind (fun coll =>
        updateDictAt coll ident (fun doc => getDestDictUpdate rest f doc))

mutual

/-- Modelled from the spec: `embedded_entity_to_dict` of
`converter/utils.py` (not under the sources being verified) recursively
converts an embedded entity into a plain nested dictionary, never
leaving an opaque embedded-entity handle inside. -/
def embDeep : PyVal → PyVal
  | PyVal.int n => PyVal.int n
  | PyVal.str s => PyVal.str s
  | PyVal.list xs => PyVal.list (embDeepList xs)
  | PyVal.embedded fs => PyVal.dict (embDeepFields fs)
  | PyVal.dict fs => PyVal.dict (embDeepFields fs)

/-- Recursive helper of `embDeep` for list values. -/
def embDeepList : List PyVal → List PyVal
  | [] => []
  | x :: xs => embDeep x :: embDeepList xs

/-- Recursive helper of `embDeep` for dictionary fields. -/
def embDeepFields : List (String × PyVal) → List (String × PyVal)
  | [] => []
  | (k, v) :: fs => (k, embDeep v) :: embDeepFields fs

end

/-- Modelled from the spec: the dictionary produced for one embedded
entity (its fields, deeply converted). -/
def embedded_entity_to_dict (fs : List (String × PyVal)) : FieldMap :=
  embDeepFields fs

/-- The field-conversion loop of `read_file` (command.py lines 186-192):
a value that is an `EmbeddedEntity` is converted via
`embedded_entity_to_dict`; every other value is stored as is. -/
def convertField : PyVal → PyVal
  | PyVal.embedded fs => PyVal.dict (embedded_entity_to_dict fs)
  | v => v

/-- Build the `data` dict of one record (command.py lines 186-192):
iterate the deserialized items and assign `data[name]` the converted
value. -/
def recordToData (fields : List (String × PyVal)) : FieldMap :=
  fields.foldl (fun data p => aupdate data p.1 (convertField p.2)) []

/-- One decoded record: its entity key and deserialized field items. -/
abbrev Record := EntityKey × List (String × PyVal)

/-- Merge an already-converted field dict into the document at `key`
(command.py lines 194-195: `get_dest_dict` then `data_dict.update`). -/
def insertFields (key : EntityKey) (data : FieldMap) (t : Tree) : Tree :=
  getDestDictUpdate key (fun doc => dictUpdate doc data) t

/-- The record loop body of `read_file` (command.py lines 182-195). -/
def insertRecord (t : Tree) (r : Record) : Tree :=
  insertFields r.1 (recordToData r.2) t

/-- `read_file` (command.py lines 177-196), over the stream of records
the external decoder and deserializer produce for the file: fold every
record into the JSON tree. -/
def read_file (records : List Record) : Tree :=
  records.foldl insertRecord []

/-- Python `s.startswith(pre)`: code-point prefix test. -/
def pyStartsWith (s pre : String) : Bool :=
  pre.data.isPrefixOf s.data

/-- The decode outcome of one input file: the stream of records the
external decoder (`converter/records.py`, modelled from the spec as an
opaque collaborator) and the datastore deserializer produce, or the
`CorruptionError` decoding raised.  `process_files` hands each file to
its target function; the target reads the file through this outcome. -/
abbrev SourceFile := String × Except PyError (List Record)

/-- `process_file` (command.py lines 120-136): skip a file whose name
does not start with the fixed prefix, otherwise build the tree and
write one JSON document, then run `num_files_processed.value += 1`.
The module global `num_files_processed` is always an `int`, which has
no attribute `value`, so that line raises `AttributeError` after the
output file was written.  The first component collects the JSON
documents written, the second the completion outcome. -/
def process_file (filename : String) (decoded : Except PyError (List Record)) :
    List (String × Tree) × Except PyError Unit :=
  if pyStartsWith filename "output-" then
    match decoded with
    | Except.error e => ([], Except.error e)
    | Except.ok recs =>
        ([(filename ++ ".json", read_file recs)],
         Except.error PyError.attributeError)
  else ([], Except.ok ())

/-- One collection's entry in a file or corpus summary. -/
structure Analysis where
  num_records : Nat
  source_files : List String
  deriving DecidableEq, Repr

/-- The per-file analysis dict of `analyze_file`. -/
abbrev FileSummary := PyDict Analysis

/-- The combined analysis dict of `combine_file_analysis`. -/
abbrev CorpusSummary := PyDict Analysis

/-- Python `len` on the values stored in a JSON tree.  Only the `dict`
case is reachable: every top-level value of a tree built by `read_file`
is a document dictionary. -/
def pyLen : PyVal → Nat
  | PyVal.int _ => 0
  | PyVal.str s => s.data.length
  | PyVal.list xs => xs.length
  | PyVal.embedded fs => fs.length
  | PyVal.dict d => d.length

/-- The collection loop of `analyze_file` (command.py lines 147-152):
for every collection of the tree not yet in the analysis dict, record
the length of its documents dict and the contributing file name. -/
def summarizeGo (filename : String) (fa : FileSummary) :
    List (String × PyVal) → FileSummary
  | [] => fa
  | (c, docs) :: rest =>
      summarizeGo filename
        (match alookup fa c with
         | some _ => fa
         | none => fa ++ [(c, ⟨pyLen docs, [filename]⟩)]) rest

/-- The `file_analysis` dict `analyze_file` builds from one tree. -/
def summarize (filename : String) (tree : Tree) : FileSummary :=
  summarizeGo filename [] tree

/-- `analyze_file` (command.py lines 139-159): `None` for a file whose
name does not start with the fixed prefix, otherwise the per-file
summary of the tree `read_file` builds (a decoding error propagates). -/
def analyze_file (filename : String) (decoded : Except PyError (List Record)) :
    Except PyError (Option FileSummary) :=
  if pyStartsWith filename "output-" then
    match decoded with
    | Except.error e => Except.error e
    | Except.ok recs => Except.ok (some (summarize filename (read_file recs)))
  else Except.ok none

/-- The inner loop of `combine_file_analysis` (command.py lines
166-173): fold one file analysis into the combined dict, creating a
zero entry for an unseen collection and then adding the counts and
concatenating the source-file lists. -/
def mergeOne : CorpusSummary → FileSummary → CorpusSummary
  | acc, [] => acc
  | acc, (c, a) :: rest =>
      mergeOne
        (let cur := (alookup acc c).getD ⟨0, []⟩
         aupdate acc c
           ⟨cur.num_records + a.num_records,
            cur.source_files ++ a.source_files⟩)
        rest

/-- The outer loop of `combine_file_analysis` (command.py lines
165-173): iterating `file_analysis.items()` on the `None` an ineligible
file produced raises `AttributeError`. -/
def combineGo : CorpusSummary → List (Option FileSummary) → Except PyError CorpusSummary
  | acc, [] => Except.ok acc
  | _, none :: _ => Except.error PyError.attributeError
  | acc, some fa :: rest => combineGo (mergeOne acc fa) rest

/-- `combine_file_analysis` (command.py lines 162-175) over the results
list `process_files` built. -/
def combine_file_analysis (l : List (Option FileSummary)) :
    Except PyError CorpusSummary :=
  combineGo [] l

/-- Python string comparison (`a <= b`): lexicographic on code points. -/
def strLeB : List Char → List Char → Bool
  | [], _ => true
  | _ :: _, [] => false
  | c :: cs, d :: ds => if c < d then true else if d < c then false else strLeB cs ds

/-- The order `sorted` uses on the directory listing: by file name. -/
def fileLe (a b : SourceFile) : Prop :=
  strLeB a.1.data b.1.data = true

instance : DecidableRel fileLe := fun a b =>
  inferInstanceAs (Decidable (strLeB a.1.data b.1.data = true))

/-- `sorted(os.listdir(source_dir))` (command.py line 107): the listing
in lexicographic file-name order. -/
def sortFiles (files : List SourceFile) : List SourceFile :=
  List.insertionSort fileLe files

/-- The result-collection loop of `process_files` (command.py lines
111-113): `results.append(target_fn(...))` for every file, a raised
exception propagating immediately. -/
def runAll (targetFn : String → Except PyError (List Record) → Except PyError ρ) :
    List SourceFile → Except PyError (List ρ)
  | [] => Except.ok []
  | (n, c) :: rest =>
      match targetFn n c with
      | Except.error e => Except.error e
      | Except.ok r =>
          match runAll targetFn rest with
          | Except.error e => Except.error e
          | Except.ok rs => Except.ok (r :: rs)

/-- `process_files` (command.py lines 105-117): sort the listing, run
the target on every file collecting results, then print the final
progress line, whose `num_files_processed/num_files` division raises
`ZeroDivisionError` when the listing was empty. -/
def process_files (files : List SourceFile)
    (targetFn : String → Except PyError (List Record) → Except PyError ρ) :
    Except PyError (List ρ) :=
  match runAll targetFn (sortFiles files) with
  | Except.error e => Except.error e
  | Except.ok rs =>
      if files.length = 0 then Except.error PyError.zeroDivisionError
      else Except.ok rs

/-- The target `main` passes to `process_files` in convert mode: the
completion outcome of `process_file` (its return value is `None`). -/
def convertTarget (n : String) (c : Except PyError (List Record)) :
    Except PyError Unit :=
  (process_file n c).2

/-- The analyze pipeline of `main` (command.py lines 90-95):
`process_files` with `analyze_file`, then `combine_file_analysis` on
the results. -/
def analyzeRun (files : List SourceFile) : Except PyError CorpusSummary :=
  match process_files files analyze_file with
  | Except.error e => Except.error e
  | Except.ok results => combine_file_analysis results

mutual

/-- A value in `t` that contains an opaque embedded-entity handle
somewhere inside (directly, in a list, or in a nested dictionary). -/
def hasEmbedded : PyVal → Bool
  | PyVal.int _ => false
  | PyVal.str _ => false
  | PyVal.embedded _ => true
  | PyVal.list xs => hasEmbeddedList xs
  | PyVal.dict fs => hasEmbeddedFields fs

/-- Recursive helper of `hasEmbedded` for list values. -/
def hasEmbeddedList : List PyVal → Bool
  | [] => false
  | x :: xs => hasEmbedded x || hasEmbeddedList xs

/-- Recursive helper of `hasEmbedded` for dictionary fields. -/
def hasEmbeddedFields : List (String × PyVal) → Bool
  | [] => false
  | (_, v) :: fs => hasEmbedded v || hasEmbeddedFields fs

end

/-- The analyses a collection contributes across a list of summaries. -/
def occs (ss : List FileSummary) (c : String) : List Analysis :=
  ss.filterMap (fun s => alookup s c)

/-! ### Association-list lemmas -/

theorem alookup_aupdate_self (m : PyDict α) (k : String) (v : α) :
    alookup (aupdate m k v) k = some v := by
  induction m with
  | nil => simp [aupdate, alookup]
  | cons p m ih =>
      by_cases h : p.1 = k
      · simp [aupdate, alookup, h]
      · simp [aupdate, alookup, h, ih]

theorem alookup_aupdate_ne (m : PyDict α) (k key : String) (v : α)
    (h : k ≠ key) : alookup (aupdate m k v) key = alookup m key := by
  induction m with
  | nil => simp [aupdate, alookup, h]
  | cons p m ih =>
      by_cases hp : p.1 = k
      · simp [aupdate, alookup, hp, h]
      · by_cases hq : p.1 = key <;>
          simp [aupdate, alookup, hp, hq, Ne.symm h, ih]

theorem aupdate_aupdate_self (m : PyDict α) (k : String) (v w : α) :
    aupdate (aupdate m k v) k w = aupdate m k w := by
  induction m with
  | nil => simp [aupdate]
  | cons p m ih =>
      by_cases h : p.1 = k
      · simp [aupdate, h]
      · simp [aupdate, h, ih]

theorem alookup_append_none (m m' : PyDict α) (k : String)
    (h : alookup m k = none) : alookup (m ++ m') k = alookup m' k := by
  induction m with
  | nil => simp
  | cons p m ih =>
      by_cases hp : p.1 = k
      · simp [alookup, hp] at h
      · simp [alookup, hp] at h ⊢
        exact ih h

theorem alookup_append_left (m m' : PyDict α) (k : String) (v : α)
    (h : alookup m k = some v) : alookup (m ++ m') k = some v := by
  induction m with
  | nil => simp [alookup] at h
  | cons p m ih =>
      by_cases hp : p.1 = k
      · simp [alookup, hp] at h ⊢
        exact h
      · simp [alookup, hp] at h ⊢
        exact ih h

theorem aupdate_of_lookup_none (m : PyDict α) (k : String) (v : α)
    (h : alookup m k = none) : aupdate m k v = m ++ [(k, v)] := by
  induction m with
  | nil => simp [aupdate]
  | cons p m ih =>
      by_cases hp : p.1 = k
      · simp [alookup, hp] at h
      · simp [alookup, hp] at h
        simp [aupdate, hp, ih h]

theorem aupdate_append_of_lookup_none (m m' : PyDict α) (k : String) (v : α)
    (h : alookup m k = none) :
    aupdate (m ++ m') k v = m ++ aupdate m' k v := by
  induction m with
  | nil => simp
  | cons p m ih =>
      by_cases hp : p.1 = k
      · simp [alookup, hp] at h
      · simp [alookup, hp] at h
        simp [aupdate, hp, ih h]

theorem alookup_eq_none_iff (m : PyDict α) (k : String) :
    alookup m k = none ↔ k ∉ m.map Prod.fst := by
  induction m with
  | nil => simp [alookup]
  | cons p m ih =>
      by_cases hp : p.1 = k
      · simp [alookup, hp]
      · simp [alookup, hp, ih, Ne.symm hp]

theorem map_fst_aupdate_of_some (m : PyDict α) (k : String) (v w : α)
    (h : alookup m k = some w) :
    (aupdate m k v).map Prod.fst = m.map Prod.fst := by
  induction m with
  | nil => simp [alookup] at h
  | cons p m ih =>
      by_cases hp : p.1 = k
      · simp [aupdate, hp]
      · simp [alookup, hp] at h
        simp [aupdate, hp, ih h]

theorem keys_nodup_aupdate (m : PyDict α) (k : String) (v : α)
    (h : (m.map Prod.fst).Nodup) :
    ((aupdate m k v).map Prod.fst).Nodup := by
  cases hl : alookup m k with
  | none =>
      rw [aupdate_of_lookup_none _ _ _ hl]
      have hk : k ∉ m.map Prod.fst := (alookup_eq_none_iff m k).mp hl
      simp [List.nodup_append, h, hk]
  | some w => rw [map_fst_aupdate_of_some _ _ _ _ hl]; exact h

/-! ### Composition of tree updates along one key path -/

theorem updateDictAt_comp (m : FieldMap) (k : String)
    (f g : FieldMap → FieldMap) :
    updateDictAt (updateDictAt m k f) k g = updateDictAt m k (fun d => g (f d)) := by
  cases h : alookup m k with
  | none =>
      have h2 : alookup (m ++ [(k, PyVal.dict (f []))]) k
          = some (PyVal.dict (f [])) := by
        rw [alookup_append_none _ _ _ h]; simp [alookup]
      simp [updateDictAt, h, h2, aupdate_append_of_lookup_none _ _ _ _ h, aupdate]
  | some v =>
      cases v <;>
        simp [updateDictAt, h, alookup_aupdate_self, aupdate_aupdate_self]

theorem getDestDictUpdate_comp (key : EntityKey) (f g : FieldMap → FieldMap)
    (m : Tree) :
    getDestDictUpdate key g (getDestDictUpdate key f m) =
      getDestDictUpdate key (fun d => g (f d)) m := by
  induction key generalizing m with
  | nil => rfl
  | cons p rest ih =>
      obtain ⟨kind, ident⟩ := p
      cases rest with
      | nil =>
          simp only [getDestDictUpdate]
          rw [updateDictAt_comp]
          congr 1
          funext c
          rw [updateDictAt_comp]
      | cons q rest2 =>
          simp only [getDestDictUpdate]
          rw [updateDictAt_comp]
          congr 1
          funext c
          rw [updateDictAt_comp]
          congr 1
          funext d
          exact ih d

/-! ### Python dict update algebra -/

theorem dictUpdate_nil (d : PyDict α) : dictUpdate d [] = d := rfl

theorem dictUpdate_cons (d : PyDict α) (k : String) (v : α) (e : PyDict α) :
    dictUpdate d ((k, v) :: e) = dictUpdate (aupdate d k v) e := rfl

theorem dictUpdate_append (d e f : PyDict α) :
    dictUpdate d (e ++ f) = dictUpdate (dictUpdate d e) f := by
  simp [dictUpdate, List.foldl_append]

theorem aupdate_comm_of_mem (X : PyDict α) (k k₂ : String) (v v₂ w : α)
    (hne : k ≠ k₂) (hmem : alookup X k = some w) :
    aupdate (aupdate X k₂ v₂) k v = aupdate (aupdate X k v) k₂ v₂ := by
  induction X with
  | nil => simp [alookup] at hmem
  | cons p X ih =>
      by_cases ha : p.1 = k
      · simp [aupdate, ha, Ne.symm hne, hne]
      · by_cases hb : p.1 = k₂
        · simp [aupdate, ha, hb, hne, Ne.symm hne]
        · simp [alookup, ha] at hmem
          simp [aupdate, ha, hb, ih hmem]

theorem aupdate_dictUpdate_of_mem (t : PyDict α) (X : PyDict α)
    (k : String) (v w : α) (hX : alookup X k = some w)
    (ht : alookup t k = none) :
    aupdate (dictUpdate X t) k v = dictUpdate (aupdate X k v) t := by
  induction t generalizing X with
  | nil => rfl
  | cons p t ih =>
      obtain ⟨k₂, v₂⟩ := p
      by_cases hp : k₂ = k
      · simp [alookup, hp] at ht
      · simp [alookup, hp] at ht
        rw [dictUpdate_cons, dictUpdate_cons]
        have hX2 : alookup (aupdate X k₂ v₂) k = some w := by
          rw [alookup_aupdate_ne _ _ _ _ hp]; exact hX
        rw [ih (aupdate X k₂ v₂) hX2 ht]
        rw [aupdate_comm_of_mem X k k₂ v v₂ w (fun hc => hp hc.symm) hX]

theorem aupdate_dictUpdate (D F : PyDict α) (k : String) (v : α)
    (hF : (F.map Prod.fst).Nodup) :
    aupdate (dictUpdate D F) k v = dictUpdate D (aupdate F k v) := by
  induction F generalizing D with
  | nil => rfl
  | cons p F ih =>
      obtain ⟨k₁, v₁⟩ := p
      simp only [List.map_cons, List.nodup_cons] at hF
      obtain ⟨hk₁, hFnd⟩ := hF
      rw [dictUpdate_cons]
      rw [ih (aupdate D k₁ v₁) hFnd]
      by_cases hk : k₁ = k
      · subst hk
        have htnone : alookup F k₁ = none := (alookup_eq_none_iff F k₁).mpr hk₁
        rw [aupdate_of_lookup_none F k₁ v htnone]
        rw [dictUpdate_append]
        have : dictUpdate (dictUpdate (aupdate D k₁ v₁) F) [(k₁, v)]
            = aupdate (dictUpdate (aupdate D k₁ v₁) F) k₁ v := rfl
        rw [this]
        rw [aupdate_dictUpdate_of_mem F (aupdate D k₁ v₁) k₁ v v₁
          (alookup_aupdate_self D k₁ v₁) htnone]
        rw [aupdate_aupdate_self]
        simp [aupdate]
        rfl
      · simp only [aupdate, if_neg hk]
        rw [dictUpdate_cons]

theorem dictUpdate_assoc (D E F : PyDict α)
    (hE : (E.map Prod.fst).Nodup) :
    dictUpdate (dictUpdate D E) F = dictUpdate D (dictUpdate E F) := by
  induction F generalizing E with
  | nil => rfl
  | cons p F ih =>
      obtain ⟨k, v⟩ := p
      rw [dictUpdate_cons, dictUpdate_cons]
      rw [aupdate_dictUpdate D E k v hE]
      exact ih (aupdate E k v) (keys_nodup_aupdate E k v hE)

/-- Two inserts at the same entity key collapse to one insert of the
merged field dict (the core of the field-level merge property). -/
theorem insertFields_insertFields (K : EntityKey) (F1 F2 : FieldMap)
    (t : Tree) (h : (F1.map Prod.fst).Nodup) :
    insertFields K F2 (insertFields K F1 t) =
      insertFields K (dictUpdate F1 F2) t := by
  unfold insertFields
  rw [getDestDictUpdate_comp]
  congr 1
  funext d
  exact dictUpdate_assoc d F1 F2 h

/-! ### Summary lookup lemmas -/

theorem alookup_summarizeGo_of_some (fn : String)
    (tree : List (String × PyVal)) (fa : FileSummary) (c : String)
    (a : Analysis) (h : alookup fa c = some a) :
    alookup (summarizeGo fn fa tree) c = some a := by
  induction tree generalizing fa with
  | nil => simpa [summarizeGo] using h
  | cons p tree ih =>
      obtain ⟨c₁, d⟩ := p
      simp only [summarizeGo]
      cases hfa : alookup fa c₁ with
      | some b => simpa [hfa] using ih fa h
      | none =>
          have h2 : alookup (fa ++ [(c₁, ⟨pyLen d, [fn]⟩)]) c = some a :=
            alookup_append_left fa _ c a h
          simpa [hfa] using ih _ h2

theorem alookup_summarizeGo_of_none (fn : String)
    (tree : List (String × PyVal)) (fa : FileSummary) (c : String)
    (h : alookup fa c = none) :
    alookup (summarizeGo fn fa tree) c =
      (alookup tree c).map (fun v => ⟨pyLen v, [fn]⟩) := by
  induction tree generalizing fa with
  | nil => simp [summarizeGo, alookup, h]
  | cons p tree ih =>
      obtain ⟨c₁, d⟩ := p
      by_cases hc : c₁ = c
      · subst hc
        simp only [summarizeGo, h]
        have h2 : alookup (fa ++ [(c₁, ⟨pyLen d, [fn]⟩)]) c₁
            = some ⟨pyLen d, [fn]⟩ := by
          rw [alookup_append_none _ _ _ h]; simp [alookup]
        rw [alookup_summarizeGo_of_some fn tree _ c₁ _ h2]
        simp [alookup]
      · simp only [summarizeGo]
        have hrest : alookup tree c = alookup ((c₁, d) :: tree) c := by
          simp [alookup, hc]
        cases hfa : alookup fa c₁ with
        | some b =>
            rw [ih fa h]
            simp [alookup, hc]
        | none =>
            have h2 : alookup (fa ++ [(c₁, ⟨pyLen d, [fn]⟩)]) c = none := by
              rw [alookup_append_none _ _ _ h]; simp [alookup, hc]
            rw [ih _ h2]
            simp [alookup, hc]

/-- What one collection reports in a file summary: the length of its
top-level documents dict in the tree, with the file as only source. -/
theorem alookup_summarize (fn : String) (tree : Tree) (c : String) :
    alookup (summarize fn tree) c =
      (alookup tree c).map (fun v => ⟨pyLen v, [fn]⟩) :=
  alookup_summarizeGo_of_none fn tree [] c rfl

/-! ### Corpus aggregation lemmas -/

theorem alookup_mergeOne_of_none (acc : CorpusSummary) (fa : FileSummary)
    (c : String) (h : alookup fa c = none) :
    alookup (mergeOne acc fa) c = alookup acc c := by
  induction fa generalizing acc with
  | nil => rfl
  | cons p fa ih =>
      obtain ⟨c₁, a⟩ := p
      by_cases hc : c₁ = c
      · simp [alookup, hc] at h
      · simp only [alookup, if_neg hc] at h
        simp only [mergeOne]
        rw [ih _ h, alookup_aupdate_ne _ _ _ _ hc]

theorem alookup_mergeOne_of_some (acc : CorpusSummary) (fa : FileSummary)
    (c : String) (a : Analysis)
    (hnd : (fa.map Prod.fst).Nodup) (h : alookup fa c = some a) :
    alookup (mergeOne acc fa) c =
      some ⟨((alookup acc c).getD ⟨0, []⟩).num_records + a.num_records,
            ((alookup acc c).getD ⟨0, []⟩).source_files ++ a.source_files⟩ := by
  induction fa generalizing acc with
  | nil => simp [alookup] at h
  | cons p fa ih =>
      obtain ⟨c₁, a₁⟩ := p
      simp only [List.map_cons, List.nodup_cons] at hnd
      obtain ⟨hc₁, hnd⟩ := hnd
      by_cases hc : c₁ = c
      · subst hc
        simp only [alookup, if_pos rfl] at h
        cases h
        simp only [mergeOne]
        have hfa : alookup fa c₁ = none := (alookup_eq_none_iff fa c₁).mpr hc₁
        rw [alookup_mergeOne_of_none _ _ _ hfa, alookup_aupdate_self]
      · simp only [alookup, if_neg hc] at h
        simp only [mergeOne]
        rw [ih _ hnd h, alookup_aupdate_ne _ _ _ _ hc]

theorem alookup_foldl_mergeOne (ss : List FileSummary)
    (acc : CorpusSummary) (c : String)
    (hnd : ∀ s ∈ ss, (s.map Prod.fst).Nodup) :
    alookup (ss.foldl mergeOne acc) c =
      if alookup acc c = none ∧ occs ss c = [] then none
      else some
        ⟨((alookup acc c).getD ⟨0, []⟩).num_records
            + ((occs ss c).map Analysis.num_records).sum,
         ((alookup acc c).getD ⟨0, []⟩).source_files
            ++ ((occs ss c).map Analysis.source_files).flatten⟩ := by
  induction ss generalizing acc with
  | nil =>
      cases hacc : alookup acc c with
      | none => simp [occs, hacc]
      | some b => simp [occs, hacc]
  | cons s ss ih =>
      have hs : (s.map Prod.fst).Nodup := hnd s (by simp)
      have hss : ∀ u ∈ ss, (u.map Prod.fst).Nodup := fun u hu =>
        hnd u (by simp [hu])
      simp only [List.foldl_cons]
      cases hsc : alookup s c with
      | none =>
          have hocc : occs (s :: ss) c = occs ss c := by
            simp [occs, List.filterMap_cons, hsc]
          rw [ih (mergeOne acc s) hss,
            alookup_mergeOne_of_none acc s c hsc, hocc]
      | some a =>
          have hocc : occs (s :: ss) c = a :: occs ss c := by
            simp [occs, List.filterMap_cons, hsc]
          rw [ih (mergeOne acc s) hss,
            alookup_mergeOne_of_some acc s c a hs hsc, hocc]
          rw [if_neg (by simp)]
          simp [Nat.add_assoc, List.append_assoc]

theorem combineGo_map_some (ss : List FileSummary) (acc : CorpusSummary) :
    combineGo acc (ss.map some) = Except.ok (ss.foldl mergeOne acc) := by
  induction ss generalizing acc with
  | nil => rfl
  | cons s ss ih => simpa [combineGo] using ih (mergeOne acc s)

theorem combineGo_error_of_none_mem (l : List (Option FileSummary))
    (acc : CorpusSummary) (h : none ∈ l) :
    combineGo acc l = Except.error PyError.attributeError := by
  induction l generalizing acc with
  | nil => simp at h
  | cons x l ih =>
      cases x with
      | none => rfl
      | some fa =>
          have : none ∈ l := by
            rcases List.mem_cons.mp h with h1 | h1
            · exact absurd h1 (by simp)
            · exact h1
          simpa [combineGo] using ih (mergeOne acc fa) this

/-! ### Lexicographic string-order lemmas for the directory sort -/

theorem strLeB_cons_iff (x y : Char) (xs ys : List Char) :
    strLeB (x :: xs) (y :: ys) = true ↔
      x < y ∨ (x = y ∧ strLeB xs ys = true) := by
  rcases lt_trichotomy x y with h | h | h
  · simp [strLeB, h]
  · simp [strLeB, h, lt_irrefl]
  · simp [strLeB, h, not_lt_of_gt h, ne_of_gt h]

theorem strLeB_total (a b : List Char) :
    strLeB a b = true ∨ strLeB b a = true := by
  induction a generalizing b with
  | nil => left; rfl
  | cons x xs ih =>
      cases b with
      | nil => right; rfl
      | cons y ys =>
          rcases lt_trichotomy x y with h | h | h
          · left; rw [strLeB_cons_iff]; exact Or.inl h
          · subst h
            rcases ih ys with h2 | h2
            · left; rw [strLeB_cons_iff]; exact Or.inr ⟨rfl, h2⟩
            · right; rw [strLeB_cons_iff]; exact Or.inr ⟨rfl, h2⟩
          · right; rw [strLeB_cons_iff]; exact Or.inl h

theorem strLeB_trans (a b c : List Char) (h1 : strLeB a b = true)
    (h2 : strLeB b c = true) : strLeB a c = true := by
  induction a generalizing b c with
  | nil => rfl
  | cons x xs ih =>
      cases b with
      | nil => simp [strLeB] at h1
      | cons y ys =>
          cases c with
          | nil => simp [strLeB] at h2
          | cons z zs =>
              rw [strLeB_cons_iff] at h1 h2 ⊢
              rcases h1 with h1 | ⟨h1, h1r⟩
              · rcases h2 with h2 | ⟨h2, _⟩
                · exact Or.inl (lt_trans h1 h2)
                · exact Or.inl (h2 ▸ h1)
              · subst h1
                rcases h2 with h2 | ⟨h2, h2r⟩
                · exact Or.inl h2
                · exact Or.inr ⟨h2, ih ys zs h1r h2r⟩

theorem strLeB_antisymm (a b : List Char) (h1 : strLeB a b = true)
    (h2 : strLeB b a = true) : a = b := by
  induction a generalizing b with
  | nil =>
      cases b with
      | nil => rfl
      | cons y ys => simp [strLeB] at h2
  | cons x xs ih =>
      cases b with
      | nil => simp [strLeB] at h1
      | cons y ys =>
          rw [strLeB_cons_iff] at h1 h2
          rcases h1 with h1 | ⟨h1, h1r⟩
          · rcases h2 with h2 | ⟨h2, _⟩
            · exact absurd (lt_trans h1 h2) (lt_irrefl x)
            · exact absurd h1 (h2 ▸ lt_irrefl y)
          · subst h1
            rcases h2 with h2 | ⟨_, h2r⟩
            · exact absurd h2 (lt_irrefl x)
            · rw [ih ys h1r h2r]

instance : IsTotal SourceFile fileLe :=
  ⟨fun a b => strLeB_total a.1.data b.1.data⟩

instance : IsTrans SourceFile fileLe :=
  ⟨fun a b c => strLeB_trans a.1.data b.1.data c.1.data⟩

/-- Sorting the listing is insensitive to the enumeration order: two
permutations of a listing with distinct file names sort identically. -/
theorem sortFiles_eq_of_perm (f₁ f₂ : List SourceFile)
    (hp : f₁.Perm f₂) (hnd : (f₁.map Prod.fst).Nodup) :
    sortFiles f₁ = sortFiles f₂ := by
  have hperm : (sortFiles f₁).Perm (sortFiles f₂) :=
    ((List.perm_insertionSort fileLe f₁).trans hp).trans
      (List.perm_insertionSort fileLe f₂).symm
  have hs₁ : List.Sorted fileLe (sortFiles f₁) :=
    List.sorted_insertionSort fileLe f₁
  have hs₂ : List.Sorted fileLe (sortFiles f₂) :=
    List.sorted_insertionSort fileLe f₂
  have hnd₁ : ((sortFiles f₁).map Prod.fst).Nodup :=
    ((List.perm_insertionSort fileLe f₁).map Prod.fst).symm.nodup hnd
  have hnd₂ : ((sortFiles f₂).map Prod.fst).Nodup :=
    (((List.perm_insertionSort fileLe f₂).map Prod.fst).symm.nodup
      ((hp.map Prod.fst).nodup hnd))
  have hpw₁ : (sortFiles f₁).Pairwise (fun a b => a.1 ≠ b.1) :=
    List.pairwise_map.mp hnd₁
  have hpw₂ : (sortFiles f₂).Pairwise (fun a b => a.1 ≠ b.1) :=
    List.pairwise_map.mp hnd₂
  haveI : IsAntisymm SourceFile (fun a b => fileLe a b ∧ a.1 ≠ b.1) :=
    ⟨fun a b hab hba =>
      absurd (String.ext (strLeB_antisymm _ _ hab.1 hba.1)) hab.2⟩
  exact List.eq_of_perm_of_sorted (r := fun a b => fileLe a b ∧ a.1 ≠ b.1)
    hperm (hs₁.and hpw₁) (hs₂.and hpw₂)

/-! ### Result-collection lemmas -/

theorem runAll_append_error {ρ : Type}
    (targetFn : String → Except PyError (List Record) → Except PyError ρ)
    (pre : List SourceFile) (n : String)
    (c : Except PyError (List Record)) (post : List SourceFile)
    (e : PyError)
    (hpre : ∀ p ∈ pre, ∃ r, targetFn p.1 p.2 = Except.ok r)
    (herr : targetFn n c = Except.error e) :
    runAll targetFn (pre ++ (n, c) :: post) = Except.error e := by
  induction pre with
  | nil => simp [runAll, herr]
  | cons p pre ih =>
      obtain ⟨r, hr⟩ := hpre p (by simp)
      have hrest := ih (fun q hq => hpre q (by simp [hq]))
      simp [runAll, hr, hrest]

theorem runAll_mem_ok {ρ : Type}
    (targetFn : String → Except PyError (List Record) → Except PyError ρ)
    (l : List SourceFile) (rs : List ρ) (n : String)
    (c : Except PyError (List Record)) (r : ρ)
    (hok : runAll targetFn l = Except.ok rs)
    (hmem : (n, c) ∈ l) (hr : targetFn n c = Except.ok r) : r ∈ rs := by
  induction l generalizing rs with
  | nil => simp at hmem
  | cons p l ih =>
      obtain ⟨n₁, c₁⟩ := p
      simp only [runAll] at hok
      cases h1 : targetFn n₁ c₁ with
      | error e => rw [h1] at hok; exact absurd hok (by simp)
      | ok r₁ =>
          rw [h1] at hok
          cases h2 : runAll targetFn l with
          | error e => rw [h2] at hok; exact absurd hok (by simp)
          | ok rs₁ =>
              rw [h2] at hok
              cases hok
              rcases List.mem_cons.mp hmem with hh | hh
              · cases hh
                rw [hr] at h1
                cases h1
                simp
              · simp [ih rs₁ h2 hh]

theorem process_files_ok_inv {ρ : Type}
    (files : List SourceFile)
    (targetFn : String → Except PyError (List Record) → Except PyError ρ)
    (rs : List ρ) (hok : process_files files targetFn = Except.ok rs) :
    runAll targetFn (sortFiles files) = Except.ok rs := by
  unfold process_files at hok
  split at hok
  · exact absurd hok (by simp)
  · rename_i rs₁ h
    split at hok
    · exact absurd hok (by simp)
    · cases hok; exact h

/-! ### Embedded-entity conversion lemmas -/

mutual

theorem hasEmbedded_embDeep : (v : PyVal) → hasEmbedded (embDeep v) = false
  | PyVal.int _ => rfl
  | PyVal.str _ => rfl
  | PyVal.list xs => by
      simp only [embDeep, hasEmbedded]
      exact hasEmbeddedList_embDeepList xs
  | PyVal.embedded fs => by
      simp only [embDeep, hasEmbedded]
      exact hasEmbeddedFields_embDeepFields fs
  | PyVal.dict fs => by
      simp only [embDeep, hasEmbedded]
      exact hasEmbeddedFields_embDeepFields fs

theorem hasEmbeddedList_embDeepList :
    (xs : List PyVal) → hasEmbeddedList (embDeepList xs) = false
  | [] => rfl
  | x :: xs => by
      simp only [embDeepList, hasEmbeddedList]
      rw [hasEmbedded_embDeep x, hasEmbeddedList_embDeepList xs]
      rfl

theorem hasEmbeddedFields_embDeepFields :
    (fs : List (String × PyVal)) → hasEmbeddedFields (embDeepFields fs) = false
  | [] => rfl
  | (_, v) :: fs => by
      simp only [embDeepFields, hasEmbeddedFields]
      rw [hasEmbedded_embDeep v, hasEmbeddedFields_embDeepFields fs]
      rfl

end

/-- The field dict built for one record has no duplicate field names. -/
theorem recordToData_keys_nodup (F : List (String × PyVal)) :
    ((recordToData F).map Prod.fst).Nodup := by
  suffices h : ∀ (acc : FieldMap), (acc.map Prod.fst).Nodup →
      (((F.foldl (fun data p => aupdate data p.1 (convertField p.2)) acc)).map
        Prod.fst).Nodup by
    exact h [] (by simp)
  induction F with
  | nil => intro acc hacc; simpa using hacc
  | cons p F ih =>
      intro acc hacc
      exact ih _ (keys_nodup_aupdate _ _ _ hacc)

/-! ## The claims -/

/-- C1, counterexample.  The listing holds two eligible files; the one
sorted first fails decoding with a `CorruptionError`.  The claim says
the corpus run does not abort, records the failing file, and processes
the remaining file; in fact `process_files` aborts at once with the
error, produces no result list, and never reaches the second file. -/
theorem c1_counterexample :
    process_files
      [("output-b", Except.ok []),
       ("output-a", Except.error PyError.corruptionError)]
      convertTarget = Except.error PyError.corruptionError := rfl

/-- C1, amended.  When processing one file raises an error (all files
before it in sorted order having succeeded), the run aborts:
`process_files` returns that error, the files after it are never
processed, and no per-file failure record or report is produced;
`main` then merely prints the error and exits with status 1. -/
theorem c1_first_error_aborts {ρ : Type}
    (targetFn : String → Except PyError (List Record) → Except PyError ρ)
    (files pre post : List SourceFile) (n : String)
    (c : Except PyError (List Record)) (e : PyError)
    (hsort : sortFiles files = pre ++ (n, c) :: post)
    (hpre : ∀ p ∈ pre, ∃ r, targetFn p.1 p.2 = Except.ok r)
    (herr : targetFn n c = Except.error e) :
    process_files files targetFn = Except.error e := by
  unfold process_files
  rw [hsort, runAll_append_error targetFn pre n c post e hpre herr]

/-- C1, witness: a convert run over one well-formed eligible file
aborts with the `AttributeError` its processing raises. -/
theorem c1_first_error_aborts_witness :
    process_files [("output-a", Except.ok [])] convertTarget
      = Except.error PyError.attributeError :=
  c1_first_error_aborts convertTarget
    [("output-a", Except.ok [])] [] [] "output-a" (Except.ok [])
    PyError.attributeError rfl (by intro p hp; simp at hp) rfl

/-- C2 (code bug).  On an eligible file, `process_file` does persist
exactly one JSON document (the file's complete tree), but then its
line `num_files_processed.value += 1` reads attribute `value` of the
module-level `int` counter and raises `AttributeError`, so the call
never completes without error — in contrast to `analyze_file`, which
increments the same counter correctly with a `global` statement. -/
theorem c2_process_file_raises :
    process_file "output-0"
      (Except.ok [([("User", "a")], [("name", PyVal.str "X")])]) =
      ([("output-0.json",
         [("User", PyVal.dict [("a", PyVal.dict [("name", PyVal.str "X")])])])],
       Except.error PyError.attributeError) := rfl

/-- C3, counterexample.  The record stream holds two records for
collection `User` (same entity key), but the reported `num_records` is
1 — the number of merged documents, not of decoded records. -/
theorem c3_counterexample :
    analyze_file "output-1"
      (Except.ok [([("User", "a")], [("name", PyVal.str "X")]),
                  ([("User", "a")], [("age", PyVal.int 5)])]) =
      Except.ok (some [("User", ⟨1, ["output-1"]⟩)]) := rfl

/-- C3, amended.  For an eligible file, `analyze_file` reports for each
collection the number of top-level entries of that collection's dict in
the file's merged tree (distinct document slots after last-write-wins
merging), together with the contributing file's name — not the raw
count of decoded records. -/
theorem c3_num_records_counts_documents (fn : String) (recs : List Record)
    (c : String) (v : PyVal)
    (helig : pyStartsWith fn "output-" = true)
    (hc : alookup (read_file recs) c = some v) :
    analyze_file fn (Except.ok recs)
        = Except.ok (some (summarize fn (read_file recs))) ∧
      alookup (summarize fn (read_file recs)) c = some ⟨pyLen v, [fn]⟩ := by
  constructor
  · simp [analyze_file, helig]
  · rw [alookup_summarize, hc]; rfl

/-- C3, witness: one file, two records for `User` under one key and one
record for `Orders`; `User` reports 1 document, `Orders` reports 1. -/
theorem c3_num_records_counts_documents_witness :
    analyze_file "output-1"
        (Except.ok [([("User", "a")], [("name", PyVal.str "X")]),
                    ([("User", "a")], [("age", PyVal.int 5)])])
      = Except.ok (some (summarize "output-1"
          (read_file [([("User", "a")], [("name", PyVal.str "X")]),
                      ([("User", "a")], [("age", PyVal.int 5)])]))) ∧
    alookup (summarize "output-1"
        (read_file [([("User", "a")], [("name", PyVal.str "X")]),
                    ([("User", "a")], [("age", PyVal.int 5)])])) "User"
      = some ⟨1, ["output-1"]⟩ :=
  c3_num_records_counts_documents "output-1"
    [([("User", "a")], [("name", PyVal.str "X")]),
     ([("User", "a")], [("age", PyVal.int 5)])]
    "User" _ (by decide) rfl

/-- C4.  Combining a list of file summaries: a collection appearing in
exactly one summary keeps its count and source list unmodified; a
collection appearing in several has the sum of the counts and the
concatenation of the source-file lists, nothing lost; a collection
appearing nowhere is absent.  (A real file summary is a Python dict, so
its keys are distinct.) -/
theorem c4_aggregation_additivity (ss : List FileSummary) (c : String)
    (hnd : ∀ s ∈ ss, (s.map Prod.fst).Nodup) :
    ∃ out, combine_file_analysis (ss.map some) = Except.ok out ∧
      (∀ a, occs ss c = [a] → alookup out c = some a) ∧
      (occs ss c ≠ [] → alookup out c =
        some ⟨((occs ss c).map Analysis.num_records).sum,
              ((occs ss c).map Analysis.source_files).flatten⟩) ∧
      (occs ss c = [] → alookup out c = none) := by
  refine ⟨ss.foldl mergeOne [], ?_, ?_, ?_, ?_⟩
  · exact combineGo_map_some ss []
  · intro a ha
    rw [alookup_foldl_mergeOne ss [] c hnd, if_neg (by simp [ha]), ha]
    simp [alookup]
  · intro hne
    rw [alookup_foldl_mergeOne ss [] c hnd, if_neg (by simp [hne])]
    simp [alookup]
  · intro hempty
    rw [alookup_foldl_mergeOne ss [] c hnd, if_pos (by simp [hempty, alookup])]

/-- C4, witness: `Users` appears in the first and third summaries with
counts 2 and 4 and files `f1`, `f3`; the combination holds `Users` with
count 6 and files `[f1, f3]`, and `Orders` (present once) keeps count 3
and files `[f2]`. -/
theorem c4_aggregation_additivity_witness :
    (∃ out, combine_file_analysis
        ([[("Users", ⟨2, ["f1"]⟩)], [("Orders", ⟨3, ["f2"]⟩)],
          [("Users", ⟨4, ["f3"]⟩)]].map some) = Except.ok out ∧
      alookup out "Users" = some ⟨6, ["f1", "f3"]⟩) ∧
    (∃ out, combine_file_analysis
        ([[("Users", ⟨2, ["f1"]⟩)], [("Orders", ⟨3, ["f2"]⟩)],
          [("Users", ⟨4, ["f3"]⟩)]].map some) = Except.ok out ∧
      alookup out "Orders" = some ⟨3, ["f2"]⟩) := by
  constructor
  · obtain ⟨out, h1, _, h3, _⟩ :=
      c4_aggregation_additivity
        [[("Users", ⟨2, ["f1"]⟩)], [("Orders", ⟨3, ["f2"]⟩)],
         [("Users", ⟨4, ["f3"]⟩)]] "Users" (by decide)
    exact ⟨out, h1, by rw [h3 (by decide)]; rfl⟩
  · obtain ⟨out, h1, h2, _, _⟩ :=
      c4_aggregation_additivity
        [[("Users", ⟨2, ["f1"]⟩)], [("Orders", ⟨3, ["f2"]⟩)],
         [("Users", ⟨4, ["f3"]⟩)]] "Orders" (by decide)
    exact ⟨out, h1, h2 ⟨3, ["f2"]⟩ (by decide)⟩

/-- C5.  Two records inserted at the same entity key merge field by
field, last write winning per field, never per document: the tree of a
two-record file at one key equals the tree of a one-record file whose
field dict is the first record's fields overridden by the second's; in
particular `{a: 1}` then `{b: 2}` at one key yields the single document
`{a: 1, b: 2}`. -/
theorem c5_field_level_merge :
    (∀ (K : EntityKey) (F1 F2 : List (String × PyVal)),
      read_file [(K, F1), (K, F2)] =
        insertFields K (dictUpdate (recordToData F1) (recordToData F2)) []) ∧
    read_file [([("User", "k")], [("a", PyVal.int 1)]),
               ([("User", "k")], [("b", PyVal.int 2)])] =
      [("User", PyVal.dict
        [("k", PyVal.dict [("a", PyVal.int 1), ("b", PyVal.int 2)])])] := by
  constructor
  · intro K F1 F2
    show insertFields K (recordToData F2)
        (insertFields K (recordToData F1) []) = _
    exact insertFields_insertFields K _ _ [] (recordToData_keys_nodup F1)
  · rfl

/-- C6, counterexample.  A listed name that does not match the prefix
is skipped by the per-file functions, but in analyze mode it does cause
an error later in the run: the whole analyze pipeline on the single
non-matching file `x` fails with `AttributeError`, against the claim
that a non-matching name causes no error anywhere in the run. -/
theorem c6_counterexample :
    analyzeRun [("x", Except.ok [])] = Except.error PyError.attributeError := rfl

/-- C6, amended.  A file is decoded and converted (or summarized) iff
its base name starts with `output-`; a non-matching name is skipped by
`process_file` and `analyze_file` without error and causes no error in
convert mode, but in analyze mode the `None` it leaves in the results
list makes `combine_file_analysis` raise `AttributeError` whenever
`process_files` itself completed. -/
theorem c6_eligibility :
    (∀ n c, pyStartsWith n "output-" = false →
      process_file n c = ([], Except.ok ()) ∧
        analyze_file n c = Except.ok none) ∧
    (∀ n recs, pyStartsWith n "output-" = true →
      process_file n (Except.ok recs) =
          ([(n ++ ".json", read_file recs)],
           Except.error PyError.attributeError) ∧
        analyze_file n (Except.ok recs) =
          Except.ok (some (summarize n (read_file recs)))) ∧
    (∀ files rs, (∃ p ∈ files, pyStartsWith p.1 "output-" = false) →
      process_files files analyze_file = Except.ok rs →
      combine_file_analysis rs = Except.error PyError.attributeError) := by
  refine ⟨?_, ?_, ?_⟩
  · intro n c h
    exact ⟨by simp [process_file, h], by simp [analyze_file, h]⟩
  · intro n recs h
    exact ⟨by simp [process_file, h], by simp [analyze_file, h]⟩
  · intro files rs hex hok
    obtain ⟨p, hmem, hpre⟩ := hex
    have hrun := process_files_ok_inv files analyze_file rs hok
    have hsmem : (p.1, p.2) ∈ sortFiles files :=
      (List.perm_insertionSort fileLe files).mem_iff.mpr hmem
    have hnone : analyze_file p.1 p.2 = Except.ok none := by
      simp [analyze_file, hpre]
    have hin : (none : Option FileSummary) ∈ rs :=
      runAll_mem_ok analyze_file (sortFiles files) rs p.1 p.2 none
        hrun hsmem hnone
    exact combineGo_error_of_none_mem rs [] hin

/-- C6, witness: the non-matching name `x` is skipped without error by
both per-file functions, and its analyze run fails in the combine
step. -/
theorem c6_eligibility_witness :
    (process_file "x" (Except.ok []) = ([], Except.ok ()) ∧
      analyze_file "x" (Except.ok []) = Except.ok none) ∧
    combine_file_analysis [none] = Except.error PyError.attributeError :=
  ⟨c6_eligibility.1 "x" (Except.ok []) (by decide),
   c6_eligibility.2.2 [("x", Except.ok [])] [none]
     ⟨("x", Except.ok []), by simp, by decide⟩ rfl⟩

/-- C7.  The listing is re-sorted into lexicographic file-name order
before processing, so the run's outcome does not depend on the order
the enumerator yields the names: the sorted listing is `fileLe`-sorted,
and two permutations of a listing (with distinct names, as a directory
listing has) produce identical `process_files` results. -/
theorem c7_sorted_deterministic {ρ : Type}
    (targetFn : String → Except PyError (List Record) → Except PyError ρ)
    (f₁ f₂ : List SourceFile) (hp : f₁.Perm f₂)
    (hnd : (f₁.map Prod.fst).Nodup) :
    List.Sorted fileLe (sortFiles f₁) ∧
      process_files f₁ targetFn = process_files f₂ targetFn := by
  refine ⟨List.sorted_insertionSort fileLe f₁, ?_⟩
  unfold process_files
  rw [sortFiles_eq_of_perm f₁ f₂ hp hnd, hp.length_eq]

/-- C7, witness: the two orders of a two-file listing analyze
identically, and the sorted listing is sorted. -/
theorem c7_sorted_deterministic_witness :
    List.Sorted fileLe
      (sortFiles [("output-b", Except.ok []), ("output-a", Except.ok [])]) ∧
      process_files [("output-b", Except.ok []), ("output-a", Except.ok [])]
          analyze_file =
        process_files [("output-a", Except.ok []), ("output-b", Except.ok [])]
          analyze_file :=
  c7_sorted_deterministic analyze_file
    [("output-b", Except.ok []), ("output-a", Except.ok [])]
    [("output-a", Except.ok []), ("output-b", Except.ok [])]
    (List.Perm.swap _ _ _) (by decide)

/-- C8, counterexample.  A record with a field whose value is a list
holding an embedded entity: `read_file` stores the list unchanged, so
the tree handed to the serializer still contains the opaque
embedded-entity handle — the conversion only inspects a field value
directly, never inside a sequence. -/
theorem c8_counterexample :
    read_file [([("User", "a")],
        [("x", PyVal.list [PyVal.embedded [("e", PyVal.int 7)]])])] =
      [("User", PyVal.dict [("a", PyVal.dict
        [("x", PyVal.list [PyVal.embedded [("e", PyVal.int 7)]])])])] ∧
    hasEmbedded (PyVal.list [PyVal.embedded [("e", PyVal.int 7)]]) = true :=
  ⟨rfl, rfl⟩

/-- C8, amended.  A field value that is itself an embedded entity is
recursively converted to a plain nested mapping free of embedded
handles before merging; a field value of any other shape — in
particular a sequence, whatever it contains — is stored unchanged. -/
theorem c8_direct_embedded_converted :
    (∀ fs, hasEmbedded (convertField (PyVal.embedded fs)) = false) ∧
    (∀ xs, convertField (PyVal.list xs) = PyVal.list xs) := by
  constructor
  · intro fs
    show hasEmbeddedFields (embDeepFields fs) = false
    exact hasEmbeddedFields_embDeepFields fs
  · intro xs
    rfl

/-- C9.  On an empty source listing the loop runs zero times and the
final progress line divides by `num_files = 0`, so `process_files`
raises `ZeroDivisionError` instead of returning an empty result
list — whatever target function the mode selected. -/
theorem c9_empty_listing {ρ : Type}
    (targetFn : String → Except PyError (List Record) → Except PyError ρ) :
    process_files [] targetFn = Except.error PyError.zeroDivisionError := rfl

/-- C10.  A listed entry whose base name does not start with the
eligibility prefix makes `analyze_file` return `None`; whenever
`process_files` completes, that `None` sits in the results list and
`combine_file_analysis` raises `AttributeError` calling `.items()` on
it — the analyze pipeline completes only if every listed entry matches
the prefix. -/
theorem c10_none_poisons_combine :
    (∀ n c, pyStartsWith n "output-" = false →
      analyze_file n c = Except.ok none) ∧
    (∀ files rs p, p ∈ files → pyStartsWith p.1 "output-" = false →
      process_files files analyze_file = Except.ok rs →
      none ∈ rs ∧
        combine_file_analysis rs = Except.error PyError.attributeError) := by
  constructor
  · intro n c h
    simp [analyze_file, h]
  · intro files rs p hmem hpre hok
    have hrun := process_files_ok_inv files analyze_file rs hok
    have hsmem : (p.1, p.2) ∈ sortFiles files :=
      (List.perm_insertionSort fileLe files).mem_iff.mpr hmem
    have hnone : analyze_file p.1 p.2 = Except.ok none := by
      simp [analyze_file, hpre]
    have hin : (none : Option FileSummary) ∈ rs :=
      runAll_mem_ok analyze_file (sortFiles files) rs p.1 p.2 none
        hrun hsmem hnone
    exact ⟨hin, combineGo_error_of_none_mem rs [] hin⟩

/-- C10, witness: a listing with the eligible `output-1` and the
non-matching `readme`; `analyze_file` yields `None` for `readme`, the
results list is `[some _, none]`, and combining fails. -/
theorem c10_none_poisons_combine_witness :
    analyze_file "readme" (Except.ok []) = Except.ok none ∧
    (none ∈ ([some [], none] : List (Option FileSummary)) ∧
      combine_file_analysis [some [], none] =
        Except.error PyError.attributeError) :=
  ⟨c10_none_poisons_combine.1 "readme" (Except.ok []) (by decide),
   c10_none_poisons_combine.2
     [("readme", Except.ok []), ("output-1", Except.ok [])]
     [some [], none] ("readme", Except.ok []) (by simp) (by decide) rfl⟩

end FsToJson
